import Mathlib

/-!
Verification development for scripts/build_cafef_zip.py.

The Python script is shallowly embedded: file contents are modelled as the
list of lines that `read_text().splitlines()` yields, Python `dt.date`
values are modelled by their proleptic-Gregorian ordinal (the value of
`date.toordinal()`, on which date comparison and `timedelta` arithmetic
act as `Nat` comparison and addition), and fallible operations return
`Option`/`Except`.
-/

namespace Cafef

/-- Character code of a decimal digit, as produced when formatting numbers. -/
def digitChar (n : Nat) : Char := Char.ofNat (48 + n)

/-- Decimal digit characters of a positive number, most significant first.
The first argument is recursion fuel; `n` itself is always enough fuel. -/
def natDigitsAux : Nat → Nat → List Char
  | 0, _ => []
  | fuel + 1, n =>
    if n = 0 then [] else natDigitsAux fuel (n / 10) ++ [digitChar (n % 10)]

/-- Decimal digit characters of `n` (empty for 0). -/
def natDigits (n : Nat) : List Char := natDigitsAux n n

/-- Zero-padded decimal rendering of `n` to width `w`, as Python `"%0wd" % n`:
shorter numbers are left-padded with 0, longer numbers keep all digits. -/
def padChars (w n : Nat) : List Char :=
  List.replicate (w - (if n = 0 then ['0'] else natDigits n).length) '0' ++
    (if n = 0 then ['0'] else natDigits n)

/-- Numeric value of a digit string, as Python `int` on it. -/
def natOfDigits (cs : List Char) : Nat :=
  cs.foldl (fun a c => 10 * a + (c.toNat - 48)) 0

/-- ASCII whitespace stripped by Python `str.strip()`. -/
def pyIsSpace (c : Char) : Bool :=
  c == ' ' || c == '\t' || c == '\n' || c == '\r' || c == '\x0b' || c == '\x0c'

/-- Remove leading and trailing characters satisfying `p`,
as Python `str.strip` with that character set. -/
def trimBy (p : Char → Bool) (cs : List Char) : List Char :=
  ((cs.dropWhile p).reverse.dropWhile p).reverse

/-- Python `tok.strip().strip('"')`. -/
def pyStripChars (cs : List Char) : List Char :=
  trimBy (fun c => c == '"') (trimBy pyIsSpace cs)

/-- The normalized ISO date string `f"{y:04d}-{m:02d}-{d:02d}"`. -/
def fmtIso (y m d : Nat) : String :=
  String.mk (padChars 4 y ++ ('-' :: (padChars 2 m ++ ('-' :: padChars 2 d))))

/-- The anchored pattern match of the regex `^\d{4}-\d{2}-\d{2}$`. -/
def isYMD (s : List Char) : Bool :=
  decide (s.length = 10) &&
  (s.getD 0 ' ').isDigit && (s.getD 1 ' ').isDigit &&
  (s.getD 2 ' ').isDigit && (s.getD 3 ' ').isDigit &&
  (s.getD 4 ' ' == '-') &&
  (s.getD 5 ' ').isDigit && (s.getD 6 ' ').isDigit &&
  (s.getD 7 ' ' == '-') &&
  (s.getD 8 ' ').isDigit && (s.getD 9 ' ').isDigit

/-- The anchored match of the day-first regex: 1-2 digits, a slash-or-dash
separator, 1-2 digits, a separator, 4 digits; returns the numeric values of
the three groups `(dd, mm, yyyy)`. Since the separators are not digits, the
greedy 1-2 digit groups are exactly the maximal digit runs. -/
def parseSlash (s : List Char) : Option (Nat × Nat × Nat) :=
  let p1 := s.takeWhile Char.isDigit
  let r1 := s.dropWhile Char.isDigit
  if p1.length < 1 ∨ 2 < p1.length then none
  else
    match r1 with
    | [] => none
    | c1 :: rest1 =>
      if c1 = '/' ∨ c1 = '-' then
        let p2 := rest1.takeWhile Char.isDigit
        let r2 := rest1.dropWhile Char.isDigit
        if p2.length < 1 ∨ 2 < p2.length then none
        else
          match r2 with
          | [] => none
          | c2 :: rest2 =>
            if c2 = '/' ∨ c2 = '-' then
              if rest2.length = 4 ∧ rest2.all Char.isDigit = true then
                some (natOfDigits p1, natOfDigits p2, natOfDigits rest2)
              else none
            else none
      else none

/-- The `^\d{8}$` branch of `parse_any_date_token` (reached when neither the
ISO regex nor a range-valid slash/dash match produced a result). -/
def fallback8 (t : List Char) : Option String :=
  if t.length = 8 ∧ t.all Char.isDigit = true then
    let yyyy := natOfDigits (t.take 4)
    let mm := natOfDigits ((t.drop 4).take 2)
    let dd := natOfDigits (t.drop 6)
    if 1 ≤ dd ∧ dd ≤ 31 ∧ 1 ≤ mm ∧ mm ≤ 12 then some (fmtIso yyyy mm dd)
    else none
  else none

/-- Model of `parse_any_date_token`: strip whitespace then quotes, try the
`YYYY-MM-DD` regex (returned verbatim), then the day-first slash/dash regex
(range-checked and reformatted), then the 8-digit form (range-checked). -/
def parse_any_date_token (tok : String) : Option String :=
  let t := pyStripChars tok.data
  if t.isEmpty then none
  else if isYMD t then some (String.mk t)
  else
    match parseSlash t with
    | some (dd, mm, yyyy) =>
      if 1 ≤ dd ∧ dd ≤ 31 ∧ 1 ≤ mm ∧ mm ≤ 12 then some (fmtIso yyyy mm dd)
      else fallback8 t
    | none => fallback8 t

/-- Python `line.split(",")`: split at every comma, keeping empty fields. -/
def splitComma : List Char → List (List Char)
  | [] => [[]]
  | c :: rest =>
    if c = ',' then [] :: splitComma rest
    else
      match splitComma rest with
      | [] => [[c]]
      | h :: t => (c :: h) :: t

/-- First successful date parse among the fields, scanning left to right. -/
def firstParse : List String → Option String
  | [] => none
  | p :: ps =>
    match parse_any_date_token p with
    | some d => some d
    | none => firstParse ps

/-- Model of `extract_date_from_line`: split on commas, strip each field,
return the first field the date token recognizer accepts. -/
def extract_date_from_line (line : String) : Option String :=
  firstParse ((splitComma line.data).map (fun p => String.mk (trimBy pyIsSpace p)))

/-- Lexicographic code-point comparison of character lists, as Python
compares strings. -/
def listLtChars : List Char → List Char → Bool
  | [], [] => false
  | [], _ :: _ => true
  | _ :: _, [] => false
  | a :: as, b :: bs =>
    if a.toNat < b.toNat then true
    else if b.toNat < a.toNat then false
    else listLtChars as bs

/-- Python `a < b` on strings. -/
def pyStrLt (a b : String) : Bool := listLtChars a.data b.data

/-- Model of `max_date_in_csv`: `none` for a missing file or a file with
fewer than two lines; otherwise the maximum (by string comparison, as Python
compares ISO strings) of the dates extracted from the body lines. -/
def max_date_in_csv : Option (List String) → Option String
  | none => none
  | some lines =>
    if lines.length < 2 then none
    else
      lines.tail.foldl
        (fun acc line =>
          match extract_date_from_line line with
          | none => acc
          | some d =>
            match acc with
            | none => some d
            | some m => if pyStrLt m d then some d else some m)
        none

/-- The body lines of the existing table whose extracted date is the target
date (the set `existing_target_lines` before the candidate scan). -/
def existingTarget (body : List String) (t : String) : List String :=
  body.filter (fun l => extract_date_from_line l == some t)

/-- The candidate-scan loop of `merge_daily_into_upto`: keep each line whose
extracted date is the target and which is not in the seen set, adding kept
lines to the seen set to block intra-batch duplicates. -/
def toAddAux (t : String) : List String → List String → List String
  | [], _ => []
  | l :: ls, seen =>
    if extract_date_from_line l = some t then
      if l ∈ seen then toAddAux t ls seen
      else l :: toAddAux t ls (l :: seen)
    else toAddAux t ls seen

/-- Model of `merge_daily_into_upto`. A file is `none` when absent, otherwise
its list of lines; the result is the appended-row count together with the
state of the existing table file after the call (the file is rewritten as
header, original body, appended rows, only when at least one row is added). -/
def merge_daily_into_upto (upto daily : Option (List String)) (t : String) :
    Nat × Option (List String) :=
  match upto, daily with
  | none, _ => (0, none)
  | some u, none => (0, some u)
  | some [], some _ => (0, some [])
  | some (header :: body), some dl =>
    if dl.length < 2 then (0, some (header :: body))
    else
      let toAdd := toAddAux t (dl.tail) (existingTarget body t)
      if toAdd.isEmpty then (0, some (header :: body))
      else (toAdd.length, some ((header :: body) ++ toAdd))

/-- A file extracted from a zip, with its byte size (`stat().st_size`). -/
structure FileEntry where
  name : String
  size : Nat
deriving DecidableEq

/-- Python `str.upper()` (ASCII case mapping on each character). -/
def pyToUpper (s : String) : String := String.mk (s.data.map Char.toUpper)

/-- Python `pat in s` on strings. -/
def containsSub (s pat : String) : Bool :=
  (List.range (s.data.length + 1)).any (fun i => pat.data.isPrefixOf (s.data.drop i))

/-- Python `s.endswith(pat)`. -/
def strEndsWith (s pat : String) : Bool := pat.data.isSuffixOf s.data

/-- First pass of candidate selection in `normalize_files`: the uppercased
name contains the key between `.` delimiters, or between `.` and `_`, or the
name ends with the key followed by `.CSV`. -/
def primaryCand (files : List FileEntry) (key : String) : List FileEntry :=
  files.filter (fun f =>
    let name := pyToUpper f.name
    containsSub name ("." ++ key ++ ".") || containsSub name ("." ++ key ++ "_") ||
      strEndsWith name (key ++ ".CSV"))

/-- Fallback pass: any file whose uppercased name contains the key anywhere. -/
def fallbackCand (files : List FileEntry) (key : String) : List FileEntry :=
  files.filter (fun f => containsSub (pyToUpper f.name) key)

/-- Candidates for a key: the first pass, or the fallback when it is empty. -/
def finalCand (files : List FileEntry) (key : String) : List FileEntry :=
  let c := primaryCand files key
  if c.isEmpty then fallbackCand files key else c

/-- Python `cand.sort(key=size, reverse=True)` followed by `cand[0]`: the
first candidate of maximal byte size (the descending sort is stable). -/
def pickLargest : List FileEntry → Option FileEntry
  | [] => none
  | f :: fs => some (fs.foldl (fun b g => if b.size < g.size then g else b) f)

/-- The canonical output names, as the `mapping_all` dict. -/
def mappingAll : List (String × String) :=
  [("HSX", "CafeF.HSX.csv"), ("HNX", "CafeF.HNX.csv"),
   ("UPCOM", "CafeF.UPCOM.csv"), ("INDEX", "CafeF.INDEX.csv")]

/-- Error message for a directory with no CSV files. -/
def errNoCSV : String := "Không thấy CSV sau khi giải nén."

/-- Error message for a key with no candidate file. -/
def errMissing (key : String) : String := "Thiếu file cho " ++ key ++ " trong zip."

/-- The dict comprehension over `required_keys`; `none` models the `KeyError`
raised for a key outside `mapping_all`. -/
def buildMapping : List String → Option (List (String × String))
  | [] => some []
  | k :: ks =>
    match mappingAll.lookup k with
    | none => none
    | some out =>
      match buildMapping ks with
      | none => none
      | some rest => some ((k, out) :: rest)

instance exceptDecEq {ε α : Type} [DecidableEq ε] [DecidableEq α] :
    DecidableEq (Except ε α)
  | Except.error a, Except.error b =>
    if h : a = b then Decidable.isTrue (h ▸ rfl)
    else Decidable.isFalse (fun hc => h (Except.error.inj hc))
  | Except.error _, Except.ok _ => Decidable.isFalse (fun hc => Except.noConfusion hc)
  | Except.ok _, Except.error _ => Decidable.isFalse (fun hc => Except.noConfusion hc)
  | Except.ok a, Except.ok b =>
    if h : a = b then Decidable.isTrue (h ▸ rfl)
    else Decidable.isFalse (fun hc => h (Except.ok.inj hc))

/-- Selection of the file for one key, or the missing-table error. -/
def selectFor (files : List FileEntry) (key : String) : Except String FileEntry :=
  match pickLargest (finalCand files key) with
  | none => Except.error (errMissing key)
  | some f => Except.ok f

/-- The per-key loop of `normalize_files`; the first failure aborts. Each
successful key yields the pair of its canonical output name and the file
copied onto it. -/
def normLoop (files : List FileEntry) :
    List (String × String) → Except String (List (String × FileEntry))
  | [] => Except.ok []
  | (k, out) :: rest =>
    match selectFor files k with
    | Except.error e => Except.error e
    | Except.ok f =>
      match normLoop files rest with
      | Except.error e => Except.error e
      | Except.ok acc => Except.ok ((out, f) :: acc)

/-- Model of `normalize_files`: build the key-to-canonical-name mapping
(`none` for a `KeyError`), fail if the directory has no CSV files at all,
then resolve every requested key in order. -/
def normalize_files (files : List FileEntry) (keys : List String) :
    Option (Except String (List (String × FileEntry))) :=
  match buildMapping keys with
  | none => none
  | some mp =>
    if files.isEmpty then some (Except.error errNoCSV)
    else some (normLoop files mp)

/-- Gregorian leap-year test. -/
def isLeap (y : Nat) : Bool := (y % 4 == 0 && y % 100 != 0) || y % 400 == 0

/-- Days in a month of the Gregorian calendar. -/
def daysInMonth (y m : Nat) : Nat :=
  if m = 2 then (if isLeap y then 29 else 28)
  else if m = 4 ∨ m = 6 ∨ m = 9 ∨ m = 11 then 30
  else 31

/-- Days before January 1 of year `y`, counted from 0001-01-01 (ordinal 1). -/
def daysBeforeYear (y : Nat) : Nat :=
  (y - 1) * 365 + (y - 1) / 4 - (y - 1) / 100 + (y - 1) / 400

/-- Days in year `y` before the first day of month `m`. -/
def daysBeforeMonth (y m : Nat) : Nat :=
  (List.range (m - 1)).foldl (fun a i => a + daysInMonth y (i + 1)) 0

/-- The proleptic-Gregorian ordinal of a date, as `date(y, m, d).toordinal()`
(0001-01-01 is ordinal 1). Python date objects are embedded as this ordinal:
their ordering is the `Nat` ordering and adding a one-day `timedelta` is
adding 1. -/
def toOrdinal (y m d : Nat) : Nat := daysBeforeYear y + daysBeforeMonth y m + d

/-- Month and 1-based day of the month from a year and a 0-based day of the
year, scanning the months in order; the first argument is the number of
months still allowed to advance. -/
def mdFromDayOfYear (y : Nat) : Nat → Nat → Nat → Nat × Nat
  | 0, m, n => (m, n + 1)
  | k + 1, m, n =>
    if n < daysInMonth y m then (m, n + 1)
    else mdFromDayOfYear y k (m + 1) (n - daysInMonth y m)

/-- Inverse of `toOrdinal`, as `date.fromordinal`: year by the 400/100/4/1
year-cycle decomposition, then month and day by scanning the months. -/
def dateOfOrdinal (o : Nat) : Nat × Nat × Nat :=
  let n := o - 1
  let n400 := n / 146097
  let r400 := n % 146097
  let n100 := r400 / 36524
  let r100 := r400 % 36524
  let n4 := r100 / 1461
  let r4 := r100 % 1461
  let n1 := r4 / 365
  let r1 := r4 % 365
  let y := 400 * n400 + 100 * n100 + 4 * n4 + n1 + 1
  if n1 = 4 ∨ n100 = 4 then (y - 1, 12, 31)
  else
    let md := mdFromDayOfYear y 11 1 r1
    (y, md.1, md.2)

/-- Python `day.isoformat()` for a date given by its ordinal. -/
def isoOfOrd (o : Nat) : String :=
  let ymd := dateOfOrdinal o
  fmtIso ymd.1 ymd.2.1 ymd.2.2

/-- Model of `dt.date.fromisoformat` on the strings this script produces
(shape `YYYY-MM-DD`), returning the date's ordinal; `none` models the
`ValueError` raised for a malformed or calendar-invalid string. -/
def iso_to_date (s : String) : Option Nat :=
  match s.data with
  | [y1, y2, y3, y4, h1, m1, m2, h2, d1, d2] =>
    if h1 = '-' ∧ h2 = '-' ∧
        (y1.isDigit && y2.isDigit && y3.isDigit && y4.isDigit &&
         m1.isDigit && m2.isDigit && d1.isDigit && d2.isDigit) = true then
      let y := natOfDigits [y1, y2, y3, y4]
      let m := natOfDigits [m1, m2]
      let d := natOfDigits [d1, d2]
      if 1 ≤ y ∧ y ≤ 9999 ∧ 1 ≤ m ∧ m ≤ 12 ∧ 1 ≤ d ∧ d ≤ daysInMonth y m then
        some (toOrdinal y m d)
      else none
    else none
  | _ => none

/-- The four canonical tables (`files` in the patcher); a table is `none`
when its CSV file does not exist. -/
structure Tables where
  hsx : Option (List String)
  hnx : Option (List String)
  upcom : Option (List String)
  index : Option (List String)
deriving DecidableEq

/-- The four per-table appended-row counters. -/
structure Rows where
  hsx : Nat
  hnx : Nat
  upcom : Nat
  index : Nat
deriving DecidableEq

/-- One of the four table kinds. -/
inductive Key where
  | HSX
  | HNX
  | UPCOM
  | INDEX
deriving DecidableEq

/-- Instrumentation of the patching loop: the days (as ordinals) whose loop
iteration ran, whose transaction archive was probed, whose index archive was
probed (only after a successful transaction probe, by short-circuit), whose
archives were downloaded, and which were actually merged and recorded. -/
structure Trace where
  visited : List Nat
  probesS : List Nat
  probesI : List Nat
  fetches : List Nat
  patched : List Nat
deriving DecidableEq

/-- The empty trace. -/
def emptyTrace : Trace := ⟨[], [], [], [], []⟩

/-- The environment the patcher calls: the two existence probes for a day's
single-day archives, whether download, extraction and normalization succeed
for that day, and the normalized daily CSV contents it then yields. -/
structure Env where
  headSolieu : Nat → Bool
  headIndex : Nat → Bool
  dailyOk : Nat → Bool
  daily : Nat → Key → Option (List String)

/-- Largest dates of the four tables, in the code's `INDEX, HSX, HNX, UPCOM`
order, dropping tables with no extractable date. -/
def candidateMaxDates (ts : Tables) : List String :=
  [max_date_in_csv ts.index, max_date_in_csv ts.hsx,
   max_date_in_csv ts.hnx, max_date_in_csv ts.upcom].filterMap id

/-- Python `max` on a list of strings: `none` for the empty list, otherwise
the first element of maximal value. -/
def pyMaxList : List String → Option String
  | [] => none
  | x :: xs => some (xs.foldl (fun a b => if pyStrLt a b then b else a) x)

/-- The per-table appended-row counts and the status note of a patch run. -/
structure Report where
  maxBefore : Option String
  maxAfter : Option String
  patched_days : List String
  appended : Rows
  note : String
deriving DecidableEq

/-- The guard threshold `MAX_BACK_DAYS_PATCH_GUARD`. -/
def MAX_BACK_DAYS_PATCH_GUARD : Nat := 21

/-- The note recorded when the baseline date cannot be determined. -/
def noteUndetermined : String :=
  "Không xác định được max_date trong Upto (parse date thất bại)."

/-- The note recorded when the cumulative bundle already reaches the
expected date. -/
def noteDone : String := "Upto đã đủ tới expected_last_trade_date."

/-- The note recorded when the gap exceeds the guard. -/
def noteGuard (gap : Nat) : String :=
  "Khoảng thiếu " ++ toString gap ++ " ngày > guard " ++
    toString MAX_BACK_DAYS_PATCH_GUARD ++ ". Dừng patch."

/-- The patching loop: one iteration per day while `day ≤ e`, each advancing
`day` by one; the first argument is fuel maintained equal to `e + 1 - day`,
so it reaches 0 exactly when the loop condition fails. A probed day whose
download, extraction or normalization fails aborts the run (`none`); a day
failing an existence probe is skipped. -/
def patchLoop (env : Env) :
    Nat → Nat → Nat → Tables → Rows → List String → Trace →
    Option (Tables × Rows × List String × Trace)
  | 0, _, _, ts, app, pd, tr => some (ts, app, pd, tr)
  | fuel + 1, day, e, ts, app, pd, tr =>
    if day ≤ e then
      let tr1 : Trace :=
        { tr with visited := tr.visited ++ [day], probesS := tr.probesS ++ [day] }
      if env.headSolieu day then
        let tr2 : Trace := { tr1 with probesI := tr1.probesI ++ [day] }
        if env.headIndex day then
          let tr3 : Trace := { tr2 with fetches := tr2.fetches ++ [day] }
          if env.dailyOk day then
            let dIso := isoOfOrd day
            let rHSX := merge_daily_into_upto ts.hsx (env.daily day Key.HSX) dIso
            let rHNX := merge_daily_into_upto ts.hnx (env.daily day Key.HNX) dIso
            let rUPC := merge_daily_into_upto ts.upcom (env.daily day Key.UPCOM) dIso
            let rIDX := merge_daily_into_upto ts.index (env.daily day Key.INDEX) dIso
            let ts' : Tables := ⟨rHSX.2, rHNX.2, rUPC.2, rIDX.2⟩
            let app' : Rows := ⟨app.hsx + rHSX.1, app.hnx + rHNX.1,
                                app.upcom + rUPC.1, app.index + rIDX.1⟩
            let tr4 : Trace := { tr3 with patched := tr3.patched ++ [day] }
            patchLoop env fuel (day + 1) e ts' app' (pd ++ [dIso]) tr4
          else none
        else patchLoop env fuel (day + 1) e ts app pd tr2
      else patchLoop env fuel (day + 1) e ts app pd tr1
    else some (ts, app, pd, tr)

/-- Model of `patch_missing_days_until_expected`: determine the baseline as
the maximum table date, compare it with the expected date, stop early in the
undetermined, already-done or guard-exceeded cases, otherwise run the
patching loop over every day strictly after the baseline up to the expected
date. The result carries the final tables and the loop trace; `none` models
an uncaught exception. -/
def patch_missing_days_until_expected (env : Env) (ts : Tables)
    (expectedIso : String) : Option (Report × Tables × Trace) :=
  let app0 : Rows := ⟨0, 0, 0, 0⟩
  match pyMaxList (candidateMaxDates ts) with
  | none =>
    some ({ maxBefore := none, maxAfter := none, patched_days := [],
            appended := app0, note := noteUndetermined }, ts, emptyTrace)
  | some b =>
    match iso_to_date expectedIso with
    | none => none
    | some e =>
      match iso_to_date b with
      | none => none
      | some c =>
        if e ≤ c then
          some ({ maxBefore := some b, maxAfter := some b, patched_days := [],
                  appended := app0, note := noteDone }, ts, emptyTrace)
        else
          let gap := e - c
          if MAX_BACK_DAYS_PATCH_GUARD < gap then
            some ({ maxBefore := some b, maxAfter := some b, patched_days := [],
                    appended := app0, note := noteGuard gap }, ts, emptyTrace)
          else
            match patchLoop env gap (c + 1) e ts app0 [] emptyTrace with
            | none => none
            | some (ts', app', pd, tr) =>
              let aft :=
                match pyMaxList (candidateMaxDates ts') with
                | some a => some a
                | none => some b
              some ({ maxBefore := some b, maxAfter := aft, patched_days := pd,
                      appended := app', note := "OK" }, ts', tr)

/-! Lemmas about the candidate scan of the merge. -/

lemma mem_existingTarget {body : List String} {t x : String} :
    x ∈ existingTarget body t ↔ x ∈ body ∧ extract_date_from_line x = some t := by
  simp [existingTarget, List.mem_filter]

lemma toAddAux_mem (t : String) :
    ∀ (ls seen : List String) (x : String),
      x ∈ toAddAux t ls seen ↔
        x ∈ ls ∧ extract_date_from_line x = some t ∧ x ∉ seen := by
  intro ls
  induction ls with
  | nil => intro seen x; simp [toAddAux]
  | cons l ls ih =>
    intro seen x
    by_cases hl : extract_date_from_line l = some t
    · by_cases hs : l ∈ seen
      · simp only [toAddAux, if_pos hl, if_pos hs, ih, List.mem_cons]
        constructor
        · rintro ⟨hx, hd', hn⟩; exact ⟨Or.inr hx, hd', hn⟩
        · rintro ⟨hx | hx, hd', hn⟩
          · exact absurd (hx ▸ hs) hn
          · exact ⟨hx, hd', hn⟩
      · simp only [toAddAux, if_pos hl, if_neg hs, List.mem_cons, ih]
        constructor
        · rintro (rfl | ⟨hx, hd', hn⟩)
          · exact ⟨Or.inl rfl, hl, hs⟩
          · exact ⟨Or.inr hx, hd', fun hxs => hn (Or.inr hxs)⟩
        · rintro ⟨rfl | hx, hd', hn⟩
          · exact Or.inl rfl
          · by_cases hxl : x = l
            · exact Or.inl hxl
            · refine Or.inr ⟨hx, hd', fun hc => ?_⟩
              rcases hc with h1 | h1
              · exact hxl h1
              · exact hn h1
    · simp only [toAddAux, if_neg hl, ih, List.mem_cons]
      constructor
      · rintro ⟨hx, hd', hn⟩; exact ⟨Or.inr hx, hd', hn⟩
      · rintro ⟨rfl | hx, hd', hn⟩
        · exact absurd hd' hl
        · exact ⟨hx, hd', hn⟩

lemma toAddAux_sublist (t : String) :
    ∀ (ls seen : List String), List.Sublist (toAddAux t ls seen) ls := by
  intro ls
  induction ls with
  | nil => intro seen; simp [toAddAux]
  | cons l ls ih =>
    intro seen
    by_cases hl : extract_date_from_line l = some t
    · by_cases hs : l ∈ seen
      · simp only [toAddAux, if_pos hl, if_pos hs]
        exact List.Sublist.cons _ (ih seen)
      · simp only [toAddAux, if_pos hl, if_neg hs]
        exact List.Sublist.cons₂ _ (ih (l :: seen))
    · simp only [toAddAux, if_neg hl]
      exact List.Sublist.cons _ (ih seen)

lemma toAddAux_nodup (t : String) :
    ∀ (ls seen : List String), (toAddAux t ls seen).Nodup := by
  intro ls
  induction ls with
  | nil => intro seen; simp [toAddAux]
  | cons l ls ih =>
    intro seen
    by_cases hl : extract_date_from_line l = some t
    · by_cases hs : l ∈ seen
      · simpa only [toAddAux, if_pos hl, if_pos hs] using ih seen
      · simp only [toAddAux, if_pos hl, if_neg hs, List.nodup_cons]
        refine ⟨fun hmem => ?_, ih (l :: seen)⟩
        exact ((toAddAux_mem t ls (l :: seen) l).mp hmem).2.2 (List.mem_cons_self _ _)
    · simpa only [toAddAux, if_neg hl] using ih seen

lemma toAddAux_eq_nil (t : String) :
    ∀ (ls seen : List String),
      (∀ x ∈ ls, extract_date_from_line x = some t → x ∈ seen) →
      toAddAux t ls seen = [] := by
  intro ls
  induction ls with
  | nil => intro seen _; simp [toAddAux]
  | cons l ls ih =>
    intro seen hall
    by_cases hl : extract_date_from_line l = some t
    · have hs : l ∈ seen := hall l (List.mem_cons_self _ _) hl
      simp only [toAddAux, if_pos hl, if_pos hs]
      exact ih seen (fun x hx hd' => hall x (List.mem_cons_of_mem _ hx) hd')
    · simp only [toAddAux, if_neg hl]
      exact ih seen (fun x hx hd' => hall x (List.mem_cons_of_mem _ hx) hd')

lemma drop_one_short {dl : List String} (hdl : dl.length < 2) : dl.tail = [] := by
  match dl, hdl with
  | [], _ => rfl
  | [_], _ => rfl

lemma merge_eq (hd : String) (body dl : List String) (t : String) :
    merge_daily_into_upto (some (hd :: body)) (some dl) t =
      ((toAddAux t (dl.tail) (existingTarget body t)).length,
       some ((hd :: body) ++ toAddAux t (dl.tail) (existingTarget body t))) := by
  by_cases hdl : dl.length < 2
  · simp [merge_daily_into_upto, if_pos hdl, drop_one_short hdl, toAddAux]
  · simp only [merge_daily_into_upto, if_neg hdl]
    by_cases hta : (toAddAux t (dl.tail) (existingTarget body t)).isEmpty
    · have hnil : toAddAux t (dl.tail) (existingTarget body t) = [] := by
        simpa [List.isEmpty_iff] using hta
      simp [hta, hnil]
    · simp [hta]

/-- C1. Merge-Dedup is idempotent: the first call appends exactly the
candidate body lines whose extracted date is the target and which are not
among the existing table's same-day lines (each at most once), and a second
call with the same candidate and target appends 0 rows and leaves the table
unchanged. -/
theorem merge_dedup_idempotent (hd : String) (body dl : List String) (t : String) :
    (∃ add, merge_daily_into_upto (some (hd :: body)) (some dl) t =
        (add.length, some ((hd :: body) ++ add)) ∧ add.Nodup ∧
        (∀ x, x ∈ add ↔
          x ∈ dl.tail ∧ extract_date_from_line x = some t ∧
            x ∉ existingTarget body t)) ∧
    (∀ s d : Option (List String),
      merge_daily_into_upto (merge_daily_into_upto s d t).2 d t =
        (0, (merge_daily_into_upto s d t).2)) := by
  constructor
  · exact ⟨_, merge_eq hd body dl t, toAddAux_nodup t _ _,
      fun x => toAddAux_mem t _ _ x⟩
  · intro s d
    match s, d with
    | none, d => cases d <;> rfl
    | some u, none => cases u <;> rfl
    | some [], some dl' => rfl
    | some (h1 :: body1), some dl' =>
      rw [merge_eq h1 body1 dl' t]
      have hcons : (h1 :: body1) ++ toAddAux t (dl'.tail) (existingTarget body1 t) =
          h1 :: (body1 ++ toAddAux t (dl'.tail) (existingTarget body1 t)) := rfl
      simp only [hcons]
      rw [merge_eq h1 (body1 ++ toAddAux t (dl'.tail) (existingTarget body1 t)) dl' t]
      have hnil : toAddAux t (dl'.tail)
          (existingTarget (body1 ++ toAddAux t (dl'.tail) (existingTarget body1 t)) t) = [] := by
        apply toAddAux_eq_nil
        intro x hx hdx
        rw [mem_existingTarget]
        by_cases hx1 : x ∈ existingTarget body1 t
        · exact ⟨List.mem_append_left _ (mem_existingTarget.mp hx1).1, hdx⟩
        · have hadd : x ∈ toAddAux t (dl'.tail) (existingTarget body1 t) :=
            (toAddAux_mem t _ _ x).mpr ⟨hx, hdx, hx1⟩
          exact ⟨List.mem_append_right _ hadd, hdx⟩
      rw [hnil]
      simp

/-- C5. Merge-Dedup preserves the header verbatim and is append-only: the
post-merge table is the original header, then the original body unchanged
and in order, then the appended lines, which keep the candidate table's
original relative order (they form a sublist of the candidate body). -/
theorem merge_dedup_append_only (hd : String) (body dl : List String) (t : String) :
    ∃ add, merge_daily_into_upto (some (hd :: body)) (some dl) t =
        (add.length, some (hd :: (body ++ add))) ∧ List.Sublist add (dl.tail) := by
  exact ⟨_, merge_eq hd body dl t, toAddAux_sublist t _ _⟩

/-- C10. The merge returns 0 exactly when it leaves the existing table
unchanged, and it does return 0 when either file is missing, the existing
table is empty, the candidate has fewer than two lines, or every dated
candidate body line is already among the existing table's same-day lines. -/
theorem merge_no_write (s d : Option (List String)) (t : String) :
    ((merge_daily_into_upto s d t).1 = 0 ↔ (merge_daily_into_upto s d t).2 = s) ∧
    (s = none → merge_daily_into_upto s d t = (0, none)) ∧
    (d = none → merge_daily_into_upto s d t = (0, s)) ∧
    (s = some [] → merge_daily_into_upto s d t = (0, s)) ∧
    (∀ dl, d = some dl → dl.length < 2 → merge_daily_into_upto s d t = (0, s)) ∧
    (∀ hdr body dl, s = some (hdr :: body) → d = some dl →
      (∀ x ∈ dl.tail, extract_date_from_line x = some t →
        x ∈ existingTarget body t) →
      merge_daily_into_upto s d t = (0, s)) := by
  refine ⟨?_, ?_, ?_, ?_, ?_, ?_⟩
  · match s, d with
    | none, d => cases d <;> simp [merge_daily_into_upto]
    | some u, none => simp [merge_daily_into_upto]
    | some [], some dl => simp [merge_daily_into_upto]
    | some (hdr :: body), some dl =>
      rw [merge_eq hdr body dl t]
      constructor
      · intro h0
        have hnil : toAddAux t (dl.tail) (existingTarget body t) = [] :=
          List.eq_nil_of_length_eq_zero h0
        simp [hnil]
      · intro hstate
        have hlen := congrArg List.length (Option.some.inj hstate)
        simpa using hlen
  · rintro rfl; cases d <;> rfl
  · rintro rfl
    cases s with
    | none => rfl
    | some u => cases u <;> rfl
  · rintro rfl; cases d <;> rfl
  · intro dl hdeq hdl
    subst hdeq
    cases s with
    | none => rfl
    | some u =>
      cases u with
      | nil => rfl
      | cons hdr body =>
        rw [merge_eq hdr body dl t]
        simp [drop_one_short hdl, toAddAux]
  · intro hdr body dl hs hde hall
    subst hs; subst hde
    rw [merge_eq hdr body dl t, toAddAux_eq_nil t _ _ hall]
    simp

/-- Witness for C10 at a concrete input: a missing existing table. -/
theorem merge_no_write_witness :
    merge_daily_into_upto none (some ["h", "x"]) "2024-01-01" = (0, none) :=
  (merge_no_write none (some ["h", "x"]) "2024-01-01").2.1 rfl

/-! Lemmas about digit characters, digit strings and zero padding. -/

lemma digitChar_isDigit : ∀ r, r < 10 → (digitChar r).isDigit = true := by decide

lemma digitChar_toNat : ∀ r, r < 10 → (digitChar r).toNat = 48 + r := by decide

lemma isDigit_not_space {c : Char} (h : c.isDigit = true) : pyIsSpace c = false := by
  cases hs : pyIsSpace c
  · rfl
  · exfalso
    simp only [pyIsSpace, Bool.or_eq_true, beq_iff_eq] at hs
    rcases hs with ((((rfl | rfl) | rfl) | rfl) | rfl) | rfl <;>
      exact absurd h (by decide)

lemma isDigit_not_quote {c : Char} (h : c.isDigit = true) : (c == '"') = false := by
  cases hq : (c == '"')
  · rfl
  · exfalso
    rw [beq_iff_eq] at hq
    subst hq
    exact absurd h (by decide)

lemma isDigit_ne_dash {c : Char} (h : c.isDigit = true) : c ≠ '-' := by
  rintro rfl; exact absurd h (by decide)

lemma natDigitsAux_digits :
    ∀ fuel n c, c ∈ natDigitsAux fuel n → c.isDigit = true := by
  intro fuel
  induction fuel with
  | zero => intro n c hc; simp [natDigitsAux] at hc
  | succ fuel ih =>
    intro n c hc
    by_cases hz : n = 0
    · simp [natDigitsAux, hz] at hc
    · simp only [natDigitsAux, if_neg hz, List.mem_append, List.mem_singleton] at hc
      rcases hc with hc | rfl
      · exact ih _ _ hc
      · exact digitChar_isDigit (n % 10) (Nat.mod_lt _ (by decide))

lemma natOfDigits_append_singleton (cs : List Char) (c : Char) :
    natOfDigits (cs ++ [c]) = 10 * natOfDigits cs + (c.toNat - 48) := by
  simp [natOfDigits, List.foldl_append]

lemma natOfDigits_natDigitsAux :
    ∀ fuel n, n ≤ fuel → natOfDigits (natDigitsAux fuel n) = n := by
  intro fuel
  induction fuel with
  | zero =>
    intro n hn
    have hz : n = 0 := Nat.le_zero.mp hn
    subst hz
    rfl
  | succ fuel ih =>
    intro n hn
    by_cases hz : n = 0
    · subst hz; rfl
    · simp only [natDigitsAux, if_neg hz]
      rw [natOfDigits_append_singleton,
        ih (n / 10) (by
          have hlt := Nat.div_lt_self (Nat.pos_of_ne_zero hz) (by decide : 1 < 10)
          omega),
        digitChar_toNat (n % 10) (Nat.mod_lt _ (by decide))]
      omega

lemma natDigitsAux_length :
    ∀ fuel k n, n < 10 ^ k → (natDigitsAux fuel n).length ≤ k := by
  intro fuel
  induction fuel with
  | zero => intro k n _; simp [natDigitsAux]
  | succ fuel ih =>
    intro k n hn
    by_cases hz : n = 0
    · simp [natDigitsAux, hz]
    · cases k with
      | zero =>
        exfalso
        simp only [Nat.pow_zero, Nat.lt_one_iff] at hn
        exact hz hn
      | succ j =>
        simp only [natDigitsAux, if_neg hz, List.length_append, List.length_singleton]
        have hdiv : n / 10 < 10 ^ j :=
          (Nat.div_lt_iff_lt_mul (by decide : 0 < 10)).mpr (by
            calc n < 10 ^ (j + 1) := hn
            _ = 10 ^ j * 10 := by rw [Nat.pow_succ])
        have := ih j (n / 10) hdiv
        omega

lemma natOfDigits_cons_zero (rest : List Char) :
    natOfDigits ('0' :: rest) = natOfDigits rest := rfl

lemma natOfDigits_replicate_zero_append (z : Nat) (ds : List Char) :
    natOfDigits (List.replicate z '0' ++ ds) = natOfDigits ds := by
  induction z with
  | zero => rfl
  | succ z ih =>
    rw [List.replicate_succ, List.cons_append, natOfDigits_cons_zero]
    exact ih

lemma padChars_val (w n : Nat) : natOfDigits (padChars w n) = n := by
  unfold padChars
  by_cases hz : n = 0
  · subst hz
    rw [if_pos rfl, natOfDigits_replicate_zero_append]
    rfl
  · rw [if_neg hz, natOfDigits_replicate_zero_append]
    exact natOfDigits_natDigitsAux n n le_rfl

lemma padChars_length (w n : Nat) (hw : 0 < w) (hn : n < 10 ^ w) :
    (padChars w n).length = w := by
  unfold padChars
  by_cases hz : n = 0
  · simp only [if_pos hz, List.length_append, List.length_replicate,
      List.length_singleton]
    omega
  · simp only [if_neg hz, List.length_append, List.length_replicate]
    have hle : (natDigits n).length ≤ w := natDigitsAux_length n w n hn
    omega

lemma padChars_digits (w n : Nat) : ∀ c ∈ padChars w n, c.isDigit = true := by
  intro c hc
  unfold padChars at hc
  by_cases hz : n = 0
  · rw [if_pos hz] at hc
    simp only [List.mem_append, List.mem_replicate, List.mem_singleton] at hc
    rcases hc with ⟨_, rfl⟩ | rfl <;> decide
  · rw [if_neg hz] at hc
    simp only [List.mem_append, List.mem_replicate] at hc
    rcases hc with ⟨_, rfl⟩ | hc
    · decide
    · exact natDigitsAux_digits n n c hc

/-! Lemmas about stripping and the regex matchers. -/

lemma dropWhile_eq_self_of (p : Char → Bool) (cs : List Char)
    (h : ∀ c ∈ cs, p c = false) : cs.dropWhile p = cs := by
  cases cs with
  | nil => rfl
  | cons c cs' => simp [List.dropWhile_cons, h c (List.mem_cons_self _ _)]

lemma trimBy_eq_self (p : Char → Bool) (cs : List Char)
    (h : ∀ c ∈ cs, p c = false) : trimBy p cs = cs := by
  unfold trimBy
  rw [dropWhile_eq_self_of p cs h,
    dropWhile_eq_self_of p cs.reverse (fun c hc => h c (List.mem_reverse.mp hc)),
    List.reverse_reverse]

lemma pyStrip_eq_self (cs : List Char)
    (h : ∀ c ∈ cs, pyIsSpace c = false ∧ (c == '"') = false) :
    pyStripChars cs = cs := by
  unfold pyStripChars
  rw [trimBy_eq_self pyIsSpace cs (fun c hc => (h c hc).1),
    trimBy_eq_self _ cs (fun c hc => (h c hc).2)]

lemma neutral_of_token {c : Char} (h : c.isDigit = true ∨ c = '-' ∨ c = '/') :
    pyIsSpace c = false ∧ (c == '"') = false := by
  rcases h with h | rfl | rfl
  · exact ⟨isDigit_not_space h, isDigit_not_quote h⟩
  · exact ⟨by decide, by decide⟩
  · exact ⟨by decide, by decide⟩

lemma takeWhile_append_sep (p : Char → Bool) :
    ∀ (xs : List Char) (y : Char) (ys : List Char),
      (∀ c ∈ xs, p c = true) → p y = false →
      ((xs ++ y :: ys).takeWhile p = xs ∧ (xs ++ y :: ys).dropWhile p = y :: ys) := by
  intro xs
  induction xs with
  | nil =>
    intro y ys _ hy
    simp [List.takeWhile_cons, List.dropWhile_cons, hy]
  | cons x xs ih =>
    intro y ys hall hy
    have hx : p x = true := hall x (List.mem_cons_self _ _)
    have hres := ih y ys (fun c hc => hall c (List.mem_cons_of_mem _ hc)) hy
    simp [List.takeWhile_cons, List.dropWhile_cons, hx, hres.1, hres.2]

lemma takeWhile_all (p : Char → Bool) :
    ∀ (xs : List Char), (∀ c ∈ xs, p c = true) → xs.takeWhile p = xs := by
  intro xs
  induction xs with
  | nil => intro _; rfl
  | cons x xs ih =>
    intro hall
    simp [List.takeWhile_cons, hall x (List.mem_cons_self _ _),
      ih (fun c hc => hall c (List.mem_cons_of_mem _ hc))]

lemma length_le_two_decomp {α : Type} {xs : List α}
    (h1 : xs ≠ []) (h2 : xs.length ≤ 2) :
    (∃ a, xs = [a]) ∨ ∃ a b, xs = [a, b] := by
  cases xs with
  | nil => exact absurd rfl h1
  | cons a xs =>
    cases xs with
    | nil => exact Or.inl ⟨a, rfl⟩
    | cons b xs =>
      cases xs with
      | nil => exact Or.inr ⟨a, b, rfl⟩
      | cons c xs =>
        exfalso
        simp only [List.length_cons] at h2
        omega

lemma length_eq_two_decomp {α : Type} {xs : List α} (h : xs.length = 2) :
    ∃ a b, xs = [a, b] := by
  rcases length_le_two_decomp (by rintro rfl; simp at h) (Nat.le_of_eq h) with
    ⟨a, rfl⟩ | hab
  · simp at h
  · exact hab

lemma length_eq_four_decomp {α : Type} {xs : List α} (h : xs.length = 4) :
    ∃ a b c d, xs = [a, b, c, d] := by
  cases xs with
  | nil => simp at h
  | cons a xs =>
    cases xs with
    | nil => simp at h
    | cons b xs =>
      cases xs with
      | nil => simp at h
      | cons c xs =>
        cases xs with
        | nil => simp at h
        | cons d xs =>
          cases xs with
          | nil => exact ⟨a, b, c, d, rfl⟩
          | cons e xs =>
            exfalso
            simp only [List.length_cons] at h
            omega

lemma sep_not_digit {s : Char} (hs : s = '/' ∨ s = '-') : s.isDigit = false := by
  rcases hs with rfl | rfl <;> decide

lemma parseSlash_complete (ds ms ys : List Char) (s1 s2 : Char)
    (hd1 : ds ≠ []) (hd2 : ds.length ≤ 2) (hd3 : ∀ c ∈ ds, c.isDigit = true)
    (hm1 : ms ≠ []) (hm2 : ms.length ≤ 2) (hm3 : ∀ c ∈ ms, c.isDigit = true)
    (hy1 : ys.length = 4) (hy3 : ∀ c ∈ ys, c.isDigit = true)
    (hs1 : s1 = '/' ∨ s1 = '-') (hs2 : s2 = '/' ∨ s2 = '-') :
    parseSlash (ds ++ s1 :: (ms ++ s2 :: ys)) =
      some (natOfDigits ds, natOfDigits ms, natOfDigits ys) := by
  have h1 := takeWhile_append_sep Char.isDigit ds s1 (ms ++ s2 :: ys) hd3
    (sep_not_digit hs1)
  have h2 := takeWhile_append_sep Char.isDigit ms s2 ys hm3 (sep_not_digit hs2)
  have hc1 : ¬(ds.length < 1 ∨ 2 < ds.length) := by
    have := List.length_pos.mpr hd1
    omega
  have hc2 : ¬(ms.length < 1 ∨ 2 < ms.length) := by
    have := List.length_pos.mpr hm1
    omega
  have hally : ys.all Char.isDigit = true := List.all_eq_true.mpr hy3
  simp only [parseSlash, h1.1, h1.2, h2.1, h2.2, if_neg hc1, if_neg hc2,
    if_pos hs1, if_pos hs2, if_pos (And.intro hy1 hally)]

lemma isYMD_len_ne {s : List Char} (h : s.length ≠ 10) : isYMD s = false := by
  unfold isYMD
  rw [decide_eq_false h]
  simp

lemma isYMD_complete (ys ms ds : List Char)
    (hy1 : ys.length = 4) (hy3 : ∀ c ∈ ys, c.isDigit = true)
    (hm1 : ms.length = 2) (hm3 : ∀ c ∈ ms, c.isDigit = true)
    (hd1 : ds.length = 2) (hd3 : ∀ c ∈ ds, c.isDigit = true) :
    isYMD (ys ++ '-' :: (ms ++ '-' :: ds)) = true := by
  obtain ⟨a, b, c, d, rfl⟩ := length_eq_four_decomp hy1
  obtain ⟨e, f, rfl⟩ := length_eq_two_decomp hm1
  obtain ⟨g, h0, rfl⟩ := length_eq_two_decomp hd1
  have ha := hy3 a (by simp)
  have hb := hy3 b (by simp)
  have hc := hy3 c (by simp)
  have hd := hy3 d (by simp)
  have he := hm3 e (by simp)
  have hf := hm3 f (by simp)
  have hg := hd3 g (by simp)
  have hh0 := hd3 h0 (by simp)
  simp [isYMD, ha, hb, hc, hd, he, hf, hg, hh0]

lemma isYMD_slash_false (ds ms ys : List Char) (s1 s2 : Char)
    (hd1 : ds ≠ []) (hd2 : ds.length ≤ 2)
    (hm1 : ms ≠ []) (hm2 : ms.length ≤ 2)
    (hy1 : ys.length = 4)
    (hs1 : s1 = '/' ∨ s1 = '-') :
    isYMD (ds ++ s1 :: (ms ++ s2 :: ys)) = false := by
  have hs1d : s1.isDigit = false := sep_not_digit hs1
  rcases length_le_two_decomp hd1 hd2 with ⟨a, rfl⟩ | ⟨a, b, rfl⟩ <;>
    rcases length_le_two_decomp hm1 hm2 with ⟨e, rfl⟩ | ⟨e, f, rfl⟩
  · exact isYMD_len_ne (by simp [hy1])
  · exact isYMD_len_ne (by simp [hy1])
  · exact isYMD_len_ne (by simp [hy1])
  · simp [isYMD, hs1d]

lemma parse_token_eval (t : List Char)
    (hneutral : ∀ c ∈ t, pyIsSpace c = false ∧ (c == '"') = false)
    (hne : t ≠ []) :
    parse_any_date_token (String.mk t) =
      (if isYMD t = true then some (String.mk t)
       else
        match parseSlash t with
        | some (dd, mm, yyyy) =>
          if 1 ≤ dd ∧ dd ≤ 31 ∧ 1 ≤ mm ∧ mm ≤ 12 then some (fmtIso yyyy mm dd)
          else fallback8 t
        | none => fallback8 t) := by
  simp only [parse_any_date_token]
  rw [pyStrip_eq_self t hneutral, if_neg (by simp [List.isEmpty_iff, hne])]

lemma fallback8_sep_none (t : List Char) (s : Char) (hst : s ∈ t)
    (hsd : s.isDigit = false) : fallback8 t = none := by
  unfold fallback8
  rw [if_neg]
  rintro ⟨-, hall⟩
  have hdt := List.all_eq_true.mp hall s hst
  rw [hsd] at hdt
  exact Bool.noConfusion hdt

lemma parse_slash_token (ds ms ys : List Char) (s1 s2 : Char)
    (hd1 : ds ≠ []) (hd2 : ds.length ≤ 2) (hd3 : ∀ c ∈ ds, c.isDigit = true)
    (hm1 : ms ≠ []) (hm2 : ms.length ≤ 2) (hm3 : ∀ c ∈ ms, c.isDigit = true)
    (hy1 : ys.length = 4) (hy3 : ∀ c ∈ ys, c.isDigit = true)
    (hs1 : s1 = '/' ∨ s1 = '-') (hs2 : s2 = '/' ∨ s2 = '-') :
    parse_any_date_token (String.mk (ds ++ s1 :: (ms ++ s2 :: ys))) =
      if 1 ≤ natOfDigits ds ∧ natOfDigits ds ≤ 31 ∧
          1 ≤ natOfDigits ms ∧ natOfDigits ms ≤ 12 then
        some (fmtIso (natOfDigits ys) (natOfDigits ms) (natOfDigits ds))
      else none := by
  have hneutral : ∀ c ∈ ds ++ s1 :: (ms ++ s2 :: ys),
      pyIsSpace c = false ∧ (c == '"') = false := by
    intro c hc
    apply neutral_of_token
    simp only [List.mem_append, List.mem_cons] at hc
    rcases hc with hc | rfl | hc | rfl | hc
    · exact Or.inl (hd3 c hc)
    · rcases hs1 with rfl | rfl
      · exact Or.inr (Or.inr rfl)
      · exact Or.inr (Or.inl rfl)
    · exact Or.inl (hm3 c hc)
    · rcases hs2 with rfl | rfl
      · exact Or.inr (Or.inr rfl)
      · exact Or.inr (Or.inl rfl)
    · exact Or.inl (hy3 c hc)
  have hne : ds ++ s1 :: (ms ++ s2 :: ys) ≠ [] := by cases ds <;> simp
  rw [parse_token_eval _ hneutral hne,
    if_neg (by rw [isYMD_slash_false ds ms ys s1 s2 hd1 hd2 hm1 hm2 hy1 hs1]; simp),
    parseSlash_complete ds ms ys s1 s2 hd1 hd2 hd3 hm1 hm2 hm3 hy1 hy3 hs1 hs2]
  dsimp only
  by_cases hr : 1 ≤ natOfDigits ds ∧ natOfDigits ds ≤ 31 ∧
      1 ≤ natOfDigits ms ∧ natOfDigits ms ≤ 12
  · rw [if_pos hr, if_pos hr]
  · rw [if_neg hr, if_neg hr]
    exact fallback8_sep_none _ s1 (by simp) (sep_not_digit hs1)

lemma parse_ymd_token (ys ms ds : List Char)
    (hy1 : ys.length = 4) (hy3 : ∀ c ∈ ys, c.isDigit = true)
    (hm1 : ms.length = 2) (hm3 : ∀ c ∈ ms, c.isDigit = true)
    (hd1 : ds.length = 2) (hd3 : ∀ c ∈ ds, c.isDigit = true) :
    parse_any_date_token (String.mk (ys ++ '-' :: (ms ++ '-' :: ds))) =
      some (String.mk (ys ++ '-' :: (ms ++ '-' :: ds))) := by
  have hneutral : ∀ c ∈ ys ++ '-' :: (ms ++ '-' :: ds),
      pyIsSpace c = false ∧ (c == '"') = false := by
    intro c hc
    apply neutral_of_token
    simp only [List.mem_append, List.mem_cons] at hc
    rcases hc with hc | rfl | hc | rfl | hc
    · exact Or.inl (hy3 c hc)
    · exact Or.inr (Or.inl rfl)
    · exact Or.inl (hm3 c hc)
    · exact Or.inr (Or.inl rfl)
    · exact Or.inl (hd3 c hc)
  have hne : ys ++ '-' :: (ms ++ '-' :: ds) ≠ [] := by cases ys <;> simp
  rw [parse_token_eval _ hneutral hne,
    if_pos (isYMD_complete ys ms ds hy1 hy3 hm1 hm3 hd1 hd3)]

lemma parse_digit8_token (y m d : Nat) (hy : y ≤ 9999)
    (hm1 : 1 ≤ m) (hm2 : m ≤ 12) (hd1 : 1 ≤ d) (hd2 : d ≤ 31) :
    parse_any_date_token (String.mk (padChars 4 y ++ padChars 2 m ++ padChars 2 d)) =
      some (fmtIso y m d) := by
  have hlen4 : (padChars 4 y).length = 4 :=
    padChars_length 4 y (by decide) (by norm_num; omega)
  have hlen2m : (padChars 2 m).length = 2 :=
    padChars_length 2 m (by decide) (by norm_num; omega)
  have hlen2d : (padChars 2 d).length = 2 :=
    padChars_length 2 d (by decide) (by norm_num; omega)
  have hdig : ∀ c ∈ padChars 4 y ++ padChars 2 m ++ padChars 2 d,
      c.isDigit = true := by
    intro c hc
    simp only [List.mem_append] at hc
    rcases hc with (hc | hc) | hc
    · exact padChars_digits 4 y c hc
    · exact padChars_digits 2 m c hc
    · exact padChars_digits 2 d c hc
  have hlen : (padChars 4 y ++ padChars 2 m ++ padChars 2 d).length = 8 := by
    simp [hlen4, hlen2m, hlen2d]
  have hneutral : ∀ c ∈ padChars 4 y ++ padChars 2 m ++ padChars 2 d,
      pyIsSpace c = false ∧ (c == '"') = false :=
    fun c hc => neutral_of_token (Or.inl (hdig c hc))
  have hne : padChars 4 y ++ padChars 2 m ++ padChars 2 d ≠ [] := by
    intro h0
    rw [h0] at hlen
    simp at hlen
  rw [parse_token_eval _ hneutral hne,
    if_neg (by rw [isYMD_len_ne (by omega)]; simp)]
  have hps : parseSlash (padChars 4 y ++ padChars 2 m ++ padChars 2 d) = none := by
    simp only [parseSlash, takeWhile_all Char.isDigit _ hdig]
    rw [if_pos (Or.inr (by omega))]
  rw [hps]
  unfold fallback8
  rw [if_pos ⟨hlen, List.all_eq_true.mpr hdig⟩]
  have htake4 : (padChars 4 y ++ padChars 2 m ++ padChars 2 d).take 4 = padChars 4 y := by
    rw [List.append_assoc]
    exact List.take_left' hlen4
  have hdrop4 : (padChars 4 y ++ padChars 2 m ++ padChars 2 d).drop 4 =
      padChars 2 m ++ padChars 2 d := by
    rw [List.append_assoc]
    exact List.drop_left' hlen4
  have htake2 : ((padChars 4 y ++ padChars 2 m ++ padChars 2 d).drop 4).take 2 =
      padChars 2 m := by
    rw [hdrop4]
    exact List.take_left' hlen2m
  have hdrop6 : (padChars 4 y ++ padChars 2 m ++ padChars 2 d).drop 6 = padChars 2 d := by
    rw [show (6 : Nat) = 4 + 2 from rfl, ← List.drop_drop, hdrop4]
    exact List.drop_left' hlen2m
  rw [htake4, htake2, hdrop6, padChars_val, padChars_val, padChars_val,
    if_pos ⟨hd1, hd2, hm1, hm2⟩]

lemma parse_digit14_none (y m d : Nat) (hh : List Char) (hy : y ≤ 9999)
    (hm : m ≤ 99) (hd : d ≤ 99) (hh6 : hh.length = 6)
    (hhd : ∀ c ∈ hh, c.isDigit = true) :
    parse_any_date_token
        (String.mk (padChars 4 y ++ padChars 2 m ++ padChars 2 d ++ hh)) = none := by
  have hlen4 : (padChars 4 y).length = 4 :=
    padChars_length 4 y (by decide) (by norm_num; omega)
  have hlen2m : (padChars 2 m).length = 2 :=
    padChars_length 2 m (by decide) (by norm_num; omega)
  have hlen2d : (padChars 2 d).length = 2 :=
    padChars_length 2 d (by decide) (by norm_num; omega)
  have hdig : ∀ c ∈ padChars 4 y ++ padChars 2 m ++ padChars 2 d ++ hh,
      c.isDigit = true := by
    intro c hc
    simp only [List.mem_append] at hc
    rcases hc with ((hc | hc) | hc) | hc
    · exact padChars_digits 4 y c hc
    · exact padChars_digits 2 m c hc
    · exact padChars_digits 2 d c hc
    · exact hhd c hc
  have hlen : (padChars 4 y ++ padChars 2 m ++ padChars 2 d ++ hh).length = 14 := by
    simp [hlen4, hlen2m, hlen2d, hh6]
  have hneutral : ∀ c ∈ padChars 4 y ++ padChars 2 m ++ padChars 2 d ++ hh,
      pyIsSpace c = false ∧ (c == '"') = false :=
    fun c hc => neutral_of_token (Or.inl (hdig c hc))
  have hne : padChars 4 y ++ padChars 2 m ++ padChars 2 d ++ hh ≠ [] := by
    intro h0
    rw [h0] at hlen
    simp at hlen
  rw [parse_token_eval _ hneutral hne,
    if_neg (by rw [isYMD_len_ne (by omega)]; simp)]
  have hps : parseSlash (padChars 4 y ++ padChars 2 m ++ padChars 2 d ++ hh) = none := by
    simp only [parseSlash, takeWhile_all Char.isDigit _ hdig]
    rw [if_pos (Or.inr (by omega))]
  rw [hps]
  unfold fallback8
  rw [if_neg]
  rintro ⟨h8, -⟩
  omega

/-- C4. The slash/dash form is parsed day-first: a token of 1-2 digits,
separator, 1-2 digits, separator, 4 digits parses to `YYYY-MM-DD` with the
first group as the day when both groups are in range, and to nothing
otherwise; `"2024-02-30"` passes the ISO branch verbatim (no per-month day
check), and non-date tokens yield nothing. -/
theorem slash_dash_day_first :
    (∀ (ds ms ys : List Char) (s1 s2 : Char),
      ds ≠ [] → ds.length ≤ 2 → (∀ c ∈ ds, c.isDigit = true) →
      ms ≠ [] → ms.length ≤ 2 → (∀ c ∈ ms, c.isDigit = true) →
      ys.length = 4 → (∀ c ∈ ys, c.isDigit = true) →
      (s1 = '/' ∨ s1 = '-') → (s2 = '/' ∨ s2 = '-') →
      ((1 ≤ natOfDigits ds ∧ natOfDigits ds ≤ 31 ∧
          1 ≤ natOfDigits ms ∧ natOfDigits ms ≤ 12 →
        parse_any_date_token (String.mk (ds ++ s1 :: (ms ++ s2 :: ys))) =
          some (fmtIso (natOfDigits ys) (natOfDigits ms) (natOfDigits ds))) ∧
       (¬(1 ≤ natOfDigits ds ∧ natOfDigits ds ≤ 31 ∧
          1 ≤ natOfDigits ms ∧ natOfDigits ms ≤ 12) →
        parse_any_date_token (String.mk (ds ++ s1 :: (ms ++ s2 :: ys))) = none))) ∧
    parse_any_date_token "05/03/2024" = some "2024-03-05" ∧
    parse_any_date_token "31/13/2024" = none ∧
    parse_any_date_token "2024-02-30" = some "2024-02-30" ∧
    parse_any_date_token "AAA" = none ∧
    parse_any_date_token "" = none ∧
    parse_any_date_token "12345" = none := by
  refine ⟨?_, by decide, by decide, by decide, by decide, by decide, by decide⟩
  intro ds ms ys s1 s2 hd1 hd2 hd3 hm1 hm2 hm3 hy1 hy3 hs1 hs2
  have heval := parse_slash_token ds ms ys s1 s2 hd1 hd2 hd3 hm1 hm2 hm3 hy1 hy3 hs1 hs2
  constructor
  · intro hr
    rw [heval, if_pos hr]
  · intro hr
    rw [heval, if_neg hr]

/-- Witness for C4 at the concrete token `15/03/2024`. -/
theorem slash_dash_day_first_witness :
    parse_any_date_token
        (String.mk (['1', '5'] ++ '/' :: (['0', '3'] ++ '/' :: ['2', '0', '2', '4']))) =
      some (fmtIso (natOfDigits ['2', '0', '2', '4']) (natOfDigits ['0', '3'])
        (natOfDigits ['1', '5'])) :=
  (slash_dash_day_first.1 ['1', '5'] ['0', '3'] ['2', '0', '2', '4'] '/' '/'
    (by decide) (by decide) (by decide) (by decide) (by decide) (by decide)
    (by decide) (by decide) (Or.inl rfl) (Or.inl rfl)).1 (by decide)

/-- C9. The `YYYY-MM-DD` branch performs no range validation: any token of
four digits, hyphen, two digits, hyphen, two digits is returned verbatim,
even with month or day out of range, and such a date propagates through the
line extractor. -/
theorem ymd_branch_no_validation :
    (∀ (ys ms ds : List Char),
      ys.length = 4 → (∀ c ∈ ys, c.isDigit = true) →
      ms.length = 2 → (∀ c ∈ ms, c.isDigit = true) →
      ds.length = 2 → (∀ c ∈ ds, c.isDigit = true) →
      parse_any_date_token (String.mk (ys ++ '-' :: (ms ++ '-' :: ds))) =
        some (String.mk (ys ++ '-' :: (ms ++ '-' :: ds)))) ∧
    parse_any_date_token "2024-99-99" = some "2024-99-99" ∧
    extract_date_from_line "VIC,2024-99-99,10" = some "2024-99-99" :=
  ⟨fun ys ms ds hy1 hy3 hm1 hm3 hd1 hd3 =>
    parse_ymd_token ys ms ds hy1 hy3 hm1 hm3 hd1 hd3, by decide, by decide⟩

/-- Witness for C9 at the out-of-range token `2024-99-99`. -/
theorem ymd_branch_no_validation_witness :
    parse_any_date_token
        (String.mk (['2', '0', '2', '4'] ++ '-' :: (['9', '9'] ++ '-' :: ['9', '9']))) =
      some (String.mk (['2', '0', '2', '4'] ++ '-' :: (['9', '9'] ++ '-' :: ['9', '9']))) :=
  ymd_branch_no_validation.1 ['2', '0', '2', '4'] ['9', '9'] ['9', '9']
    (by decide) (by decide) (by decide) (by decide) (by decide) (by decide)

/-- C2 counterexample: a 14-digit `YYYYMMDDHHMMSS` token with a valid
embedded date is not recognized; the recognizer has no 14-digit branch. -/
theorem fourteen_digit_token_rejected :
    parse_any_date_token "20240315123456" = none := by decide

/-- C2 amended: the recognizer accepts the ISO, slash/dash and 8-digit
encodings of a valid date and all three normalize to the same `YYYY-MM-DD`
string, but the fourth claimed encoding, 14-digit `YYYYMMDDHHMMSS`, is not
recognized and yields no result. -/
theorem date_encodings_agree (y m d : Nat) (hh : List Char)
    (hy : y ≤ 9999) (hm1 : 1 ≤ m) (hm2 : m ≤ 12) (hd1 : 1 ≤ d) (hd2 : d ≤ 31)
    (hh6 : hh.length = 6) (hhd : ∀ c ∈ hh, c.isDigit = true) :
    parse_any_date_token (fmtIso y m d) = some (fmtIso y m d) ∧
    parse_any_date_token
        (String.mk (padChars 2 d ++ '/' :: (padChars 2 m ++ '/' :: padChars 4 y))) =
      some (fmtIso y m d) ∧
    parse_any_date_token (String.mk (padChars 4 y ++ padChars 2 m ++ padChars 2 d)) =
      some (fmtIso y m d) ∧
    parse_any_date_token
        (String.mk (padChars 4 y ++ padChars 2 m ++ padChars 2 d ++ hh)) = none := by
  have hlen4 : (padChars 4 y).length = 4 :=
    padChars_length 4 y (by decide) (by norm_num; omega)
  have hlen2m : (padChars 2 m).length = 2 :=
    padChars_length 2 m (by decide) (by norm_num; omega)
  have hlen2d : (padChars 2 d).length = 2 :=
    padChars_length 2 d (by decide) (by norm_num; omega)
  have hne2d : padChars 2 d ≠ [] := by
    intro h0
    rw [h0] at hlen2d
    simp at hlen2d
  have hne2m : padChars 2 m ≠ [] := by
    intro h0
    rw [h0] at hlen2m
    simp at hlen2m
  have hfmt : fmtIso y m d =
      String.mk (padChars 4 y ++ '-' :: (padChars 2 m ++ '-' :: padChars 2 d)) := rfl
  refine ⟨?_, ?_, ?_, ?_⟩
  · rw [hfmt]
    exact parse_ymd_token (padChars 4 y) (padChars 2 m) (padChars 2 d)
      hlen4 (padChars_digits 4 y) hlen2m (padChars_digits 2 m)
      hlen2d (padChars_digits 2 d)
  · have heval := parse_slash_token (padChars 2 d) (padChars 2 m) (padChars 4 y) '/' '/'
      hne2d (by omega) (padChars_digits 2 d)
      hne2m (by omega) (padChars_digits 2 m)
      hlen4 (padChars_digits 4 y) (Or.inl rfl) (Or.inl rfl)
    rw [heval, padChars_val, padChars_val, padChars_val,
      if_pos ⟨hd1, hd2, hm1, hm2⟩]
  · exact parse_digit8_token y m d hy hm1 hm2 hd1 hd2
  · exact parse_digit14_none y m d hh hy (by omega) (by omega) hh6 hhd

/-- Witness for the amended C2 at the date 2024-03-15. -/
theorem date_encodings_agree_witness :
    parse_any_date_token (fmtIso 2024 3 15) = some (fmtIso 2024 3 15) ∧
    parse_any_date_token
        (String.mk (padChars 2 15 ++ '/' :: (padChars 2 3 ++ '/' :: padChars 4 2024))) =
      some (fmtIso 2024 3 15) ∧
    parse_any_date_token (String.mk (padChars 4 2024 ++ padChars 2 3 ++ padChars 2 15)) =
      some (fmtIso 2024 3 15) ∧
    parse_any_date_token
        (String.mk (padChars 4 2024 ++ padChars 2 3 ++ padChars 2 15 ++
          ['1', '2', '0', '0', '0', '0'])) = none :=
  date_encodings_agree 2024 3 15 ['1', '2', '0', '0', '0', '0']
    (by decide) (by decide) (by decide) (by decide) (by decide)
    (by decide) (by decide)

/-- C3. The line extractor splits on commas, strips each field, and returns
the first field the recognizer accepts, scanning left to right; the three
reference lines behave as specified. -/
theorem line_date_extractor :
    extract_date_from_line "VIC,15/03/2024,10000" = some "2024-03-15" ∧
    extract_date_from_line "2024-03-15,VIC,10000" = some "2024-03-15" ∧
    extract_date_from_line "VIC,XYZ,10000" = none ∧
    (∀ (pre post : List String) (p d : String),
      (∀ q ∈ pre, parse_any_date_token q = none) →
      parse_any_date_token p = some d →
      firstParse (pre ++ p :: post) = some d) := by
  refine ⟨by decide, by decide, by decide, ?_⟩
  intro pre post p d hpre hp
  induction pre with
  | nil => simp [firstParse, hp]
  | cons q pre ih =>
    have hq := hpre q (List.mem_cons_self _ _)
    simp only [List.cons_append, firstParse, hq]
    exact ih (fun r hr => hpre r (List.mem_cons_of_mem _ hr))

/-- Witness for C3: the scan skips a non-date field and returns the first
parsed date. -/
theorem line_date_extractor_witness :
    firstParse (["VIC"] ++ "15/03/2024" :: ["10000"]) = some "2024-03-15" :=
  line_date_extractor.2.2.2 ["VIC"] ["10000"] "15/03/2024" "2024-03-15"
    (by decide) (by decide)

/-! Lemmas about the table normalizer. -/

lemma foldl_pick_spec :
    ∀ (fs : List FileEntry) (b : FileEntry),
      (fs.foldl (fun b g => if b.size < g.size then g else b) b = b ∨
       fs.foldl (fun b g => if b.size < g.size then g else b) b ∈ fs) ∧
      b.size ≤ (fs.foldl (fun b g => if b.size < g.size then g else b) b).size ∧
      ∀ g ∈ fs, g.size ≤ (fs.foldl (fun b g => if b.size < g.size then g else b) b).size := by
  intro fs
  induction fs with
  | nil => intro b; exact ⟨Or.inl rfl, Nat.le_refl _, by simp⟩
  | cons f fs ih =>
    intro b
    simp only [List.foldl_cons]
    obtain ⟨hmem, hle, hall⟩ := ih (if b.size < f.size then f else b)
    refine ⟨?_, ?_, ?_⟩
    · rcases hmem with heq | hmem
      · rw [heq]
        by_cases hc : b.size < f.size
        · rw [if_pos hc]
          exact Or.inr (List.mem_cons_self _ _)
        · rw [if_neg hc]
          exact Or.inl rfl
      · exact Or.inr (List.mem_cons_of_mem _ hmem)
    · refine Nat.le_trans ?_ hle
      by_cases hc : b.size < f.size
      · rw [if_pos hc]
        omega
      · rw [if_neg hc]
    · intro g hg
      rcases List.mem_cons.mp hg with rfl | hg
      · refine Nat.le_trans ?_ hle
        by_cases hc : b.size < g.size
        · rw [if_pos hc]
        · rw [if_neg hc]
          omega
      · exact hall g hg

lemma selectFor_ok {files : List FileEntry} {k : String} {f : FileEntry}
    (h : selectFor files k = Except.ok f) :
    f ∈ finalCand files k ∧ ∀ g ∈ finalCand files k, g.size ≤ f.size := by
  unfold selectFor at h
  obtain ⟨c, cs, hcand⟩ : ∃ c cs, finalCand files k = c :: cs := by
    cases hfc : finalCand files k with
    | nil =>
      rw [hfc] at h
      exact absurd h (by simp [pickLargest])
    | cons c cs => exact ⟨c, cs, rfl⟩
  rw [hcand] at h
  simp only [pickLargest] at h
  have hf : cs.foldl (fun b g => if b.size < g.size then g else b) c = f := by
    cases h
    rfl
  obtain ⟨hmem, hle, hall⟩ := foldl_pick_spec cs c
  rw [hf] at hmem hle hall
  rw [hcand]
  refine ⟨?_, ?_⟩
  · rcases hmem with rfl | hmem
    · exact List.mem_cons_self _ _
    · exact List.mem_cons_of_mem _ hmem
  · intro g hg
    rcases List.mem_cons.mp hg with rfl | hg
    · exact hle
    · exact hall g hg

lemma normLoop_error_of (files : List FileEntry) :
    ∀ (mp : List (String × String)) (p : String × String),
      p ∈ mp → finalCand files p.1 = [] →
      ∃ e, normLoop files mp = Except.error e := by
  intro mp
  induction mp with
  | nil => intro p hp; simp at hp
  | cons q mp ih =>
    intro p hp hempty
    obtain ⟨k, out⟩ := q
    rcases List.mem_cons.mp hp with heq | hp
    · have hempty' : finalCand files k = [] := by
        rw [heq] at hempty
        exact hempty
      have hsel : selectFor files k = Except.error (errMissing k) := by
        unfold selectFor
        rw [hempty']
        rfl
      exact ⟨errMissing k, by simp [normLoop, hsel]⟩
    · obtain ⟨e, he⟩ := ih p hp hempty
      cases hsel : selectFor files k with
      | error e' => exact ⟨e', by simp [normLoop, hsel]⟩
      | ok f => exact ⟨e, by simp [normLoop, hsel, he]⟩

lemma normLoop_ok_spec (files : List FileEntry) :
    ∀ (mp : List (String × String)) (asg : List (String × FileEntry)),
      normLoop files mp = Except.ok asg →
      ∀ q ∈ asg, ∃ p ∈ mp, q.1 = p.2 ∧ q.2 ∈ finalCand files p.1 ∧
        ∀ g ∈ finalCand files p.1, g.size ≤ q.2.size := by
  intro mp
  induction mp with
  | nil =>
    intro asg h q hq
    simp only [normLoop] at h
    cases h
    simp at hq
  | cons pr mp ih =>
    intro asg h q hq
    obtain ⟨k, out⟩ := pr
    cases hsel : selectFor files k with
    | error e => simp [normLoop, hsel] at h
    | ok f =>
      cases hrec : normLoop files mp with
      | error e => simp [normLoop, hsel, hrec] at h
      | ok acc =>
        simp only [normLoop, hsel, hrec] at h
        cases h
        rcases List.mem_cons.mp hq with rfl | hq
        · obtain ⟨hmem, hmax⟩ := selectFor_ok hsel
          exact ⟨(k, out), List.mem_cons_self _ _, rfl, hmem, hmax⟩
        · obtain ⟨p, hp, h1, h2, h3⟩ := ih acc hrec q hq
          exact ⟨p, List.mem_cons_of_mem _ hp, h1, h2, h3⟩

/-- C8. Table Normalizer selection: with no CSV files it fails with the
no-CSV error; the candidate set for a key is the delimiter-based first pass,
falling back to plain substring containment only when the first pass is
empty; a key whose candidate set is empty after both passes makes the run
fail; and every resolved key is assigned a candidate of maximal byte size,
copied to its canonical name. -/
theorem normalize_selection (files : List FileEntry) (keys : List String)
    (mp : List (String × String)) (hmp : buildMapping keys = some mp) :
    (files = [] → normalize_files files keys = some (Except.error errNoCSV)) ∧
    (∀ k, (primaryCand files k ≠ [] → finalCand files k = primaryCand files k) ∧
          (primaryCand files k = [] → finalCand files k = fallbackCand files k)) ∧
    (files ≠ [] → ∀ p ∈ mp, finalCand files p.1 = [] →
      ∃ e, normalize_files files keys = some (Except.error e)) ∧
    (∀ asg, normalize_files files keys = some (Except.ok asg) →
      ∀ q ∈ asg, ∃ p ∈ mp, q.1 = p.2 ∧ q.2 ∈ finalCand files p.1 ∧
        ∀ g ∈ finalCand files p.1, g.size ≤ q.2.size) := by
  refine ⟨?_, ?_, ?_, ?_⟩
  · rintro rfl
    simp [normalize_files, hmp]
  · intro k
    constructor
    · intro hne
      simp [finalCand, List.isEmpty_iff, hne]
    · intro he
      simp [finalCand, he]
  · intro hfne p hp hempty
    obtain ⟨e, he⟩ := normLoop_error_of files mp p hp hempty
    refine ⟨e, ?_⟩
    simp [normalize_files, hmp, List.isEmpty_iff, hfne, he]
  · intro asg h q hq
    simp only [normalize_files, hmp] at h
    by_cases hf : files.isEmpty
    · rw [if_pos hf] at h
      simp at h
    · rw [if_neg hf] at h
      exact normLoop_ok_spec files mp asg (Option.some.inj h) q hq

/-- Witness for C8: between a delimiter-matching file of 50 bytes and one of
80 bytes, the 80-byte file is selected for the HSX kind. -/
theorem normalize_selection_witness :
    ∃ p ∈ [("HSX", "CafeF.HSX.csv")],
      ("CafeF.HSX.csv", FileEntry.mk "other_hsx.csv" 80).1 = p.2 ∧
      ("CafeF.HSX.csv", FileEntry.mk "other_hsx.csv" 80).2 ∈ finalCand
        [FileEntry.mk "Data.HSX.20240101.csv" 50, FileEntry.mk "other_hsx.csv" 80]
        p.1 ∧
      ∀ g ∈ finalCand
          [FileEntry.mk "Data.HSX.20240101.csv" 50, FileEntry.mk "other_hsx.csv" 80]
          p.1,
        g.size ≤ ("CafeF.HSX.csv", FileEntry.mk "other_hsx.csv" 80).2.size :=
  (normalize_selection
    [FileEntry.mk "Data.HSX.20240101.csv" 50, FileEntry.mk "other_hsx.csv" 80]
    ["HSX"] [("HSX", "CafeF.HSX.csv")] rfl).2.2.2
    [("CafeF.HSX.csv", FileEntry.mk "other_hsx.csv" 80)] (by decide)
    ("CafeF.HSX.csv", FileEntry.mk "other_hsx.csv" 80) (by decide)

/-! Lemmas about the patching loop. -/

lemma range'_pairwise_lt : ∀ (n s : Nat),
    (List.range' s n).Pairwise (fun a b => a < b) := by
  intro n
  induction n with
  | zero => intro s; simp [List.range']
  | succ n ih =>
    intro s
    refine List.Pairwise.cons ?_ (ih (s + 1))
    intro b hb
    have := List.mem_range'_1.mp hb
    omega

lemma patchLoop_spec (env : Env) :
    ∀ (fuel day e : Nat) (ts : Tables) (app : Rows) (pd : List String) (tr : Trace),
      e + 1 - day = fuel →
      (∀ d, day ≤ d → d ≤ e → env.headSolieu d = true → env.headIndex d = true →
        env.dailyOk d = true) →
      ∃ ts' app',
        patchLoop env fuel day e ts app pd tr =
          some (ts', app',
            pd ++ ((List.range' day fuel).filter
              (fun d => env.headSolieu d && env.headIndex d)).map isoOfOrd,
            ⟨tr.visited ++ List.range' day fuel,
             tr.probesS ++ List.range' day fuel,
             tr.probesI ++ (List.range' day fuel).filter env.headSolieu,
             tr.fetches ++ (List.range' day fuel).filter
               (fun d => env.headSolieu d && env.headIndex d),
             tr.patched ++ (List.range' day fuel).filter
               (fun d => env.headSolieu d && env.headIndex d)⟩) := by
  intro fuel
  induction fuel with
  | zero =>
    intro day e ts app pd tr hfuel hok
    refine ⟨ts, app, ?_⟩
    simp [patchLoop, List.range']
  | succ fuel ih =>
    intro day e ts app pd tr hfuel hok
    have hday : day ≤ e := by omega
    have hfuel' : e + 1 - (day + 1) = fuel := by omega
    by_cases hS : env.headSolieu day = true
    · by_cases hI : env.headIndex day = true
      · have hOk : env.dailyOk day = true := hok day le_rfl hday hS hI
        obtain ⟨ts', app', heq⟩ := ih (day + 1) e
          ⟨(merge_daily_into_upto ts.hsx (env.daily day Key.HSX) (isoOfOrd day)).2,
           (merge_daily_into_upto ts.hnx (env.daily day Key.HNX) (isoOfOrd day)).2,
           (merge_daily_into_upto ts.upcom (env.daily day Key.UPCOM) (isoOfOrd day)).2,
           (merge_daily_into_upto ts.index (env.daily day Key.INDEX) (isoOfOrd day)).2⟩
          ⟨app.hsx + (merge_daily_into_upto ts.hsx (env.daily day Key.HSX) (isoOfOrd day)).1,
           app.hnx + (merge_daily_into_upto ts.hnx (env.daily day Key.HNX) (isoOfOrd day)).1,
           app.upcom + (merge_daily_into_upto ts.upcom (env.daily day Key.UPCOM) (isoOfOrd day)).1,
           app.index + (merge_daily_into_upto ts.index (env.daily day Key.INDEX) (isoOfOrd day)).1⟩
          (pd ++ [isoOfOrd day])
          ⟨tr.visited ++ [day], tr.probesS ++ [day], tr.probesI ++ [day],
           tr.fetches ++ [day], tr.patched ++ [day]⟩
          hfuel' (fun d h1 h2 => hok d (by omega) h2)
        refine ⟨ts', app', ?_⟩
        simp only [patchLoop, if_pos hday, hS, hI, hOk, if_true]
        rw [heq]
        simp [List.range', List.filter_cons, hS, hI, List.append_assoc]
      · obtain ⟨ts', app', heq⟩ := ih (day + 1) e ts app pd
          ⟨tr.visited ++ [day], tr.probesS ++ [day], tr.probesI ++ [day],
           tr.fetches, tr.patched⟩
          hfuel' (fun d h1 h2 => hok d (by omega) h2)
        refine ⟨ts', app', ?_⟩
        have hIf : env.headIndex day = false := by
          cases hx : env.headIndex day
          · rfl
          · exact absurd hx hI
        simp only [patchLoop, if_pos hday, hS, hIf, if_true, Bool.false_eq_true,
          if_false]
        rw [heq]
        simp [List.range', List.filter_cons, hS, hIf, List.append_assoc]
    · have hSf : env.headSolieu day = false := by
        cases hx : env.headSolieu day
        · rfl
        · exact absurd hx hS
      obtain ⟨ts', app', heq⟩ := ih (day + 1) e ts app pd
        ⟨tr.visited ++ [day], tr.probesS ++ [day], tr.probesI, tr.fetches, tr.patched⟩
        hfuel' (fun d h1 h2 => hok d (by omega) h2)
      refine ⟨ts', app', ?_⟩
      simp only [patchLoop, if_pos hday, hSf, Bool.false_eq_true, if_false]
      rw [heq]
      simp [List.range', List.filter_cons, hSf, List.append_assoc]

/-- C7. Gap Patcher guard: when the gap from baseline to expected date
strictly exceeds the 21-day guard, the run stops before the patching loop:
no probe or fetch happens (empty trace), patched_days is empty, all four
appended counters are 0, the tables are unchanged, the after-baseline equals
the before-baseline, and the note records the guard hit. -/
theorem gap_patcher_guard (env : Env) (ts : Tables) (expIso : String)
    (b : String) (c e : Nat)
    (hb : pyMaxList (candidateMaxDates ts) = some b)
    (he : iso_to_date expIso = some e)
    (hc : iso_to_date b = some c)
    (hlt : c < e) (hgap : MAX_BACK_DAYS_PATCH_GUARD < e - c) :
    patch_missing_days_until_expected env ts expIso =
      some ({ maxBefore := some b, maxAfter := some b, patched_days := [],
              appended := ⟨0, 0, 0, 0⟩, note := noteGuard (e - c) }, ts, emptyTrace) := by
  simp only [patch_missing_days_until_expected, hb, he, hc]
  rw [if_neg (by omega), if_pos hgap]

/-- Witness for C7: a 49-day gap stops the patcher with the guard note,
no probes and unchanged tables. -/
theorem gap_patcher_guard_witness :
    patch_missing_days_until_expected
      ⟨fun _ => false, fun _ => false, fun _ => true, fun _ _ => none⟩
      ⟨none, none, none, some ["H", "IDX,2024-01-02,1"]⟩
      "2024-02-20" =
    some ({ maxBefore := some "2024-01-02", maxAfter := some "2024-01-02",
            patched_days := [], appended := ⟨0, 0, 0, 0⟩,
            note := noteGuard (toOrdinal 2024 2 20 - toOrdinal 2024 1 2) },
          ⟨none, none, none, some ["H", "IDX,2024-01-02,1"]⟩, emptyTrace) :=
  gap_patcher_guard
    ⟨fun _ => false, fun _ => false, fun _ => true, fun _ _ => none⟩
    ⟨none, none, none, some ["H", "IDX,2024-01-02,1"]⟩
    "2024-02-20" "2024-01-02" (toOrdinal 2024 1 2) (toOrdinal 2024 2 20)
    (by decide) (by decide) (by decide) (by decide) (by decide)

/-- C6. Gap Patcher monotonicity: with a gap within the guard, the loop
visits exactly the days strictly after the baseline up to the expected day,
in strictly ascending order, once each; a day failing an existence probe is
skipped (absent from the patched trace and from patched_days) while the
loop continues through the whole interval, and the run ends with note OK. -/
theorem gap_patcher_loop (env : Env) (ts : Tables) (expIso : String)
    (b : String) (c e : Nat)
    (hb : pyMaxList (candidateMaxDates ts) = some b)
    (he : iso_to_date expIso = some e)
    (hc : iso_to_date b = some c)
    (hlt : c < e) (hgap : e - c ≤ MAX_BACK_DAYS_PATCH_GUARD)
    (hok : ∀ d, c < d → d ≤ e → env.headSolieu d = true → env.headIndex d = true →
      env.dailyOk d = true) :
    ∃ ts' app aft,
      (patch_missing_days_until_expected env ts expIso =
        some ({ maxBefore := some b, maxAfter := aft,
                patched_days := ((List.range' (c + 1) (e - c)).filter
                  (fun d => env.headSolieu d && env.headIndex d)).map isoOfOrd,
                appended := app, note := "OK" },
              ts',
              ⟨List.range' (c + 1) (e - c),
               List.range' (c + 1) (e - c),
               (List.range' (c + 1) (e - c)).filter env.headSolieu,
               (List.range' (c + 1) (e - c)).filter
                 (fun d => env.headSolieu d && env.headIndex d),
               (List.range' (c + 1) (e - c)).filter
                 (fun d => env.headSolieu d && env.headIndex d)⟩)) ∧
      (List.range' (c + 1) (e - c)).Pairwise (fun a b => a < b) ∧
      (∀ d, d ∈ List.range' (c + 1) (e - c) ↔ c < d ∧ d ≤ e) ∧
      (∀ d, c < d → d ≤ e → (env.headSolieu d && env.headIndex d) = false →
        d ∉ (List.range' (c + 1) (e - c)).filter
          (fun d => env.headSolieu d && env.headIndex d)) := by
  obtain ⟨ts', app', heq⟩ := patchLoop_spec env (e - c) (c + 1) e ts ⟨0, 0, 0, 0⟩ []
    emptyTrace (by omega) (fun d h1 h2 => hok d (by omega) h2)
  refine ⟨ts', app',
    (match pyMaxList (candidateMaxDates ts') with
     | some a => some a
     | none => some b), ?_, ?_, ?_, ?_⟩
  · simp only [patch_missing_days_until_expected, hb, he, hc]
    rw [if_neg (by omega), if_neg (Nat.not_lt.mpr hgap), heq]
    simp [emptyTrace]
  · exact range'_pairwise_lt (e - c) (c + 1)
  · intro d
    rw [List.mem_range'_1]
    omega
  · intro d h1 h2 hff hmem
    have hP := (List.mem_filter.mp hmem).2
    rw [hff] at hP
    exact Bool.noConfusion hP

/-- Witness for C6: baseline 2024-03-13, expected 2024-03-15, with
2024-03-14 missing from the CDN and 2024-03-15 present. -/
theorem gap_patcher_loop_witness :
    ∃ ts' app aft,
      (patch_missing_days_until_expected
        ⟨fun d => d == toOrdinal 2024 3 15, fun d => d == toOrdinal 2024 3 15,
         fun _ => true,
         fun _ k => if k == Key.INDEX then some ["H", "IDX,2024-03-15,3"]
           else some ["H"]⟩
        ⟨some ["H", "VIC,2024-03-13,1"], none, none, some ["H", "IDX,2024-03-13,2"]⟩
        "2024-03-15" =
        some ({ maxBefore := some "2024-03-13", maxAfter := aft,
                patched_days := ((List.range' (toOrdinal 2024 3 13 + 1)
                    (toOrdinal 2024 3 15 - toOrdinal 2024 3 13)).filter
                  (fun d => (d == toOrdinal 2024 3 15) && (d == toOrdinal 2024 3 15))).map
                    isoOfOrd,
                appended := app, note := "OK" },
              ts',
              ⟨List.range' (toOrdinal 2024 3 13 + 1)
                 (toOrdinal 2024 3 15 - toOrdinal 2024 3 13),
               List.range' (toOrdinal 2024 3 13 + 1)
                 (toOrdinal 2024 3 15 - toOrdinal 2024 3 13),
               (List.range' (toOrdinal 2024 3 13 + 1)
                 (toOrdinal 2024 3 15 - toOrdinal 2024 3 13)).filter
                   (fun d => d == toOrdinal 2024 3 15),
               (List.range' (toOrdinal 2024 3 13 + 1)
                 (toOrdinal 2024 3 15 - toOrdinal 2024 3 13)).filter
                   (fun d => (d == toOrdinal 2024 3 15) && (d == toOrdinal 2024 3 15)),
               (List.range' (toOrdinal 2024 3 13 + 1)
                 (toOrdinal 2024 3 15 - toOrdinal 2024 3 13)).filter
                   (fun d => (d == toOrdinal 2024 3 15) && (d == toOrdinal 2024 3 15))⟩)) ∧
      (List.range' (toOrdinal 2024 3 13 + 1)
        (toOrdinal 2024 3 15 - toOrdinal 2024 3 13)).Pairwise (fun a b => a < b) ∧
      (∀ d, d ∈ List.range' (toOrdinal 2024 3 13 + 1)
          (toOrdinal 2024 3 15 - toOrdinal 2024 3 13) ↔
        toOrdinal 2024 3 13 < d ∧ d ≤ toOrdinal 2024 3 15) ∧
      (∀ d, toOrdinal 2024 3 13 < d → d ≤ toOrdinal 2024 3 15 →
        ((d == toOrdinal 2024 3 15) && (d == toOrdinal 2024 3 15)) = false →
        d ∉ (List.range' (toOrdinal 2024 3 13 + 1)
            (toOrdinal 2024 3 15 - toOrdinal 2024 3 13)).filter
          (fun d => (d == toOrdinal 2024 3 15) && (d == toOrdinal 2024 3 15))) :=
  gap_patcher_loop
    ⟨fun d => d == toOrdinal 2024 3 15, fun d => d == toOrdinal 2024 3 15,
     fun _ => true,
     fun _ k => if k == Key.INDEX then some ["H", "IDX,2024-03-15,3"]
       else some ["H"]⟩
    ⟨some ["H", "VIC,2024-03-13,1"], none, none, some ["H", "IDX,2024-03-13,2"]⟩
    "2024-03-15" "2024-03-13" (toOrdinal 2024 3 13) (toOrdinal 2024 3 15)
    (by decide) (by decide) (by decide) (by decide) (by decide)
    (fun _ _ _ _ _ => rfl)

example : parse_any_date_token "15/03/2024" = some "2024-03-15" := by decide
example : parse_any_date_token "05/03/2024" = some "2024-03-05" := by decide
example : parse_any_date_token "2024-02-30" = some "2024-02-30" := by decide
example : parse_any_date_token "31/13/2024" = none := by decide
example : parse_any_date_token "20240315" = some "2024-03-15" := by decide
example : parse_any_date_token "20240315123456" = none := by decide
example : parse_any_date_token "AAA" = none := by decide
example : parse_any_date_token "" = none := by decide
example : parse_any_date_token "12345" = none := by decide
example : parse_any_date_token " \"2024-99-99\" " = some "2024-99-99" := by decide
example : extract_date_from_line "VIC,15/03/2024,10000" = some "2024-03-15" := by decide
example : extract_date_from_line "2024-03-15,VIC,10000" = some "2024-03-15" := by decide
example : extract_date_from_line "VIC,XYZ,10000" = none := by decide
example : toOrdinal 1 1 1 = 1 := by decide
example : toOrdinal 2024 1 1 = 738886 := by decide
example : dateOfOrdinal 738886 = (2024, 1, 1) := by decide
example : dateOfOrdinal (toOrdinal 2024 3 15) = (2024, 3, 15) := by decide
example : dateOfOrdinal (toOrdinal 2020 12 31) = (2020, 12, 31) := by decide
example : dateOfOrdinal (toOrdinal 2000 12 31) = (2000, 12, 31) := by decide
example : dateOfOrdinal (toOrdinal 1900 2 28) = (1900, 2, 28) := by decide
example : toOrdinal 2024 3 1 = toOrdinal 2024 2 29 + 1 := by decide
example : toOrdinal 2023 3 1 = toOrdinal 2023 2 28 + 1 := by decide
example : isoOfOrd (toOrdinal 2024 3 15) = "2024-03-15" := by decide
example : iso_to_date "2024-03-15" = some (toOrdinal 2024 3 15) := by decide
example : iso_to_date "2024-02-30" = none := by decide
example : iso_to_date "2024-99-99" = none := by decide

example :
    patch_missing_days_until_expected
      ⟨fun d => d == toOrdinal 2024 3 15, fun d => d == toOrdinal 2024 3 15,
       fun _ => true,
       fun _ k => if k == Key.INDEX then some ["H", "IDX,2024-03-15,3"] else some ["H"]⟩
      ⟨some ["H", "VIC,2024-03-13,1"], none, none, some ["H", "IDX,2024-03-13,2"]⟩
      "2024-03-15" =
    some ({ maxBefore := some "2024-03-13", maxAfter := some "2024-03-15",
            patched_days := ["2024-03-15"], appended := ⟨0, 0, 0, 1⟩, note := "OK" },
          ⟨some ["H", "VIC,2024-03-13,1"], none, none,
           some ["H", "IDX,2024-03-13,2", "IDX,2024-03-15,3"]⟩,
          ⟨[toOrdinal 2024 3 14, toOrdinal 2024 3 15],
           [toOrdinal 2024 3 14, toOrdinal 2024 3 15],
           [toOrdinal 2024 3 15], [toOrdinal 2024 3 15], [toOrdinal 2024 3 15]⟩) := by
  decide

end Cafef
